import Mathlib

/-!
Verification of the in-memory todo store of `src/stores/todoStore.ts`
(the `TodoStoreFactory` closure built with `create<TodoState>`).

Shallow embedding conventions:
* A JS `Todo` object is the structure `Todo`; `createdAt : Nat` is the
  millisecond clock value captured at creation (`new Date()` / `Date.now()`
  are both the current time, passed in as the `now` argument).
* The zustand state together with the factory-closure variable `idCounter`
  is `StoreState`.  The initial value of `idCounter` in the source is `1`.
* The logging collaborator is modelled by recording the emitted entries:
  each operation returns the list of `LogEntry` values it emits, in order.
* zustand broadcasts to subscribers exactly when the updater passed to
  `set` returns an object that is not reference-identical to the previous
  state (`Object.is` check).  Returning `state` itself therefore does not
  broadcast, returning a fresh partial `{ todos: ... }` does.  Each
  operation records this as the Boolean `broadcast`.
* `(Date.now() + idCounter++).toString()` is `Nat.repr (now + idCounter)`
  followed by incrementing the counter (JS postfix increment uses the old
  value).
* JS string truthiness of `text.trim()` is `jsTrim text ≠ ""`.
-/

namespace TodoApp

/-- The `Todo` entity of `src/types` as used by the store. -/
structure Todo where
  id : String
  text : String
  completed : Bool
  createdAt : Nat
deriving DecidableEq, Repr

/-- Severity levels of the logging collaborator (`ILoggingService`). -/
inductive LogLevel where
  | info
  | warn
  | error
deriving DecidableEq, Repr

/-- A primitive value inside a structured log payload. -/
inductive LogValue where
  | str (s : String)
  | bool (b : Bool)
  | num (n : Nat)
deriving DecidableEq, Repr

/-- One emitted log record: severity, message, structured payload
(the JS payload object as a list of key/value pairs). -/
structure LogEntry where
  level : LogLevel
  message : String
  data : List (String × LogValue)
deriving DecidableEq, Repr

/-- The store state: the published `todos` sequence plus the factory
closure variable `idCounter`. -/
structure StoreState where
  todos : List Todo
  idCounter : Nat
deriving DecidableEq, Repr

/-- Initial state: `todos: []`, `let idCounter = 1`. -/
def initialState : StoreState := ⟨[], 1⟩

/-- Result of one store operation: the new state, the log entries emitted
during the call (in order), and whether zustand broadcasts a new state
reference to subscribers. -/
structure OpResult where
  state : StoreState
  logs : List LogEntry
  broadcast : Bool
deriving DecidableEq, Repr

/-- JS `String.prototype.trim`: drop leading and trailing whitespace
characters. -/
def trimChars (l : List Char) : List Char :=
  ((l.dropWhile Char.isWhitespace).reverse.dropWhile Char.isWhitespace).reverse

/-- JS `text.trim()` over the string's characters. -/
def jsTrim (s : String) : String := (trimChars s.data).asString

/-- `addTodo` from `todoStore.ts` lines 29-43: trim the text; when the
trimmed text is truthy, build the new todo with
`id = (Date.now() + idCounter++).toString()`, `completed = false`,
`createdAt = new Date()`, log info `'Todo added'` with `{id, text}`, and
set `todos` to `[...state.todos, newTodo]`.  Otherwise do nothing. -/
def addTodo (now : Nat) (text : String) (s : StoreState) : OpResult :=
  if jsTrim text ≠ "" then
    let newTodo : Todo :=
      { id := Nat.repr (now + s.idCounter)
        text := jsTrim text
        completed := false
        createdAt := now }
    { state := { todos := s.todos ++ [newTodo], idCounter := s.idCounter + 1 }
      logs := [⟨.info, "Todo added", [("id", .str newTodo.id), ("text", .str newTodo.text)]⟩]
      broadcast := true }
  else
    { state := s, logs := [], broadcast := false }

/-- The updater of `toggleTodo`: `todo.id === id ? { ...todo, completed: !todo.completed } : todo`. -/
def flipIf (id : String) (todo : Todo) : Todo :=
  if todo.id = id then { todo with completed := !todo.completed } else todo

/-- `toggleTodo` from `todoStore.ts` lines 45-63: `findIndex` on `id`; if
found, map the flip over the todos, log info `'Todo toggled'` with
`{id, completed}` read back from `updatedTodos[todoIndex]`, and publish the
new array; if not found, log warn `'Todo not found for toggle'` with `{id}`
and return the state object itself (so zustand does not broadcast). -/
def toggleTodo (id : String) (s : StoreState) : OpResult :=
  match s.todos.findIdx? (fun todo => todo.id == id) with
  | some todoIndex =>
    let updatedTodos := s.todos.map (flipIf id)
    let updatedTodo := updatedTodos.getD todoIndex ⟨"", "", false, 0⟩
    { state := { todos := updatedTodos, idCounter := s.idCounter }
      logs := [⟨.info, "Todo toggled",
                [("id", .str id), ("completed", .bool updatedTodo.completed)]⟩]
      broadcast := true }
  | none =>
    { state := s
      logs := [⟨.warn, "Todo not found for toggle", [("id", .str id)]⟩]
      broadcast := false }

/-- `removeTodo` from `todoStore.ts` lines 65-78: filter out the matching
id; log info `'Todo removed'` when the length shrank, warn
`'Todo not found for removal'` otherwise; always publish the freshly
filtered array (so zustand always broadcasts). -/
def removeTodo (id : String) (s : StoreState) : OpResult :=
  let initialLength := s.todos.length
  let updatedTodos := s.todos.filter (fun todo => todo.id != id)
  { state := { todos := updatedTodos, idCounter := s.idCounter }
    logs :=
      if updatedTodos.length < initialLength then
        [⟨.info, "Todo removed", [("id", .str id)]⟩]
      else
        [⟨.warn, "Todo not found for removal", [("id", .str id)]⟩]
    broadcast := true }

/-- `loadTodos` from `todoStore.ts` lines 80-84: no state change, one info
log `'Todos loaded'` with the hard-coded payload `{ count: 0 }`. -/
def loadTodos (s : StoreState) : OpResult :=
  { state := s
    logs := [⟨.info, "Todos loaded", [("count", .num 0)]⟩]
    broadcast := false }

/-- One call made against the store over its lifetime.  `add` carries the
wall-clock value `Date.now()` observed during that call. -/
inductive Op where
  | add (now : Nat) (text : String)
  | toggle (id : String)
  | remove (id : String)
  | load
deriving DecidableEq, Repr

/-- Dispatch one operation. -/
def step (s : StoreState) : Op → OpResult
  | .add now text => addTodo now text s
  | .toggle id => toggleTodo id s
  | .remove id => removeTodo id s
  | .load => loadTodos s

/-- Run a sequence of operations from a state. -/
def runOps (s : StoreState) : List Op → StoreState
  | [] => s
  | op :: rest => runOps (step s op).state rest

/-- The numbers `Date.now() + idCounter` from which `addTodo` builds the
ids of the todos it actually creates, in call order. -/
def genNums (s : StoreState) : List Op → List Nat
  | [] => []
  | .add now text :: rest =>
    (if jsTrim text ≠ "" then [now + s.idCounter] else []) ++
      genNums (step s (.add now text)).state rest
  | op :: rest => genNums (step s op).state rest

/-- The id strings generated by `addTodo` along a run
(`(Date.now() + idCounter++).toString()`). -/
def genIds (s : StoreState) (ops : List Op) : List String :=
  (genNums s ops).map Nat.repr

/-- `chrono t ops` holds when the wall-clock values carried by the `add`
operations are at least `t` and nondecreasing in call order — the
environment assumption that `Date.now()` does not go backwards during the
store's lifetime. -/
def chrono : Nat → List Op → Bool
  | _, [] => true
  | t, .add now _ :: rest => decide (t ≤ now) && chrono now rest
  | t, _ :: rest => chrono t rest

/-!
Heap model for the copy-on-write discipline.  JS arrays are mutable
references; the source only ever builds fresh arrays (`[...spread]`,
`map`, `filter`) and never writes through an existing reference.  We make
this explicit: `heap` is the list of every todo array ever published,
a pointer is an index into it, `cur` is the pointer zustand currently
publishes.  Each mutating path allocates by appending to `heap`; nothing
ever overwrites an existing cell.
-/

/-- Store state with explicit array references. -/
structure HStore where
  heap : List (List Todo)
  cur : Nat
  idCounter : Nat
deriving DecidableEq, Repr

/-- The array a pointer refers to (valid pointers are always in range). -/
def HStore.deref (h : HStore) (p : Nat) : List Todo := h.heap.getD p []

/-- Heap-level `addTodo`: `[...state.todos, newTodo]` allocates a fresh
array which becomes the published one. -/
def hAddTodo (now : Nat) (text : String) (h : HStore) : HStore :=
  if jsTrim text ≠ "" then
    let todos := h.deref h.cur
    let newTodo : Todo :=
      { id := Nat.repr (now + h.idCounter)
        text := jsTrim text
        completed := false
        createdAt := now }
    { heap := h.heap ++ [todos ++ [newTodo]]
      cur := h.heap.length
      idCounter := h.idCounter + 1 }
  else h

/-- Heap-level `toggleTodo`: on a hit, `map` allocates a fresh array which
becomes the published one; on a miss the updater returns `state` itself,
so nothing is allocated and the published pointer is unchanged. -/
def hToggleTodo (id : String) (h : HStore) : HStore :=
  let todos := h.deref h.cur
  match todos.findIdx? (fun todo => todo.id == id) with
  | some _ =>
    { heap := h.heap ++ [todos.map (flipIf id)]
      cur := h.heap.length
      idCounter := h.idCounter }
  | none => h

/-- Heap-level `removeTodo`: `filter` always allocates a fresh array and
it is always published, hit or miss. -/
def hRemoveTodo (id : String) (h : HStore) : HStore :=
  let todos := h.deref h.cur
  { heap := h.heap ++ [todos.filter (fun todo => todo.id != id)]
    cur := h.heap.length
    idCounter := h.idCounter }

/-!
Exception-explicit model.  The store calls the injected logging
collaborator without any try/catch, so a logger that raises propagates to
the store's caller; and the one place the source indexes an array
(`updatedTodos[todoIndex]`) would evaluate to `undefined` and make the
subsequent property access throw if the index were out of range.  Both
are modelled in `Except`: a logger is a function that may fail, and the
indexing reads through `List.get?`.
-/

/-- A possibly-raising logging collaborator. -/
def Logger : Type := LogEntry → Except String Unit

/-- `addTodo` with explicit logger effects. -/
def addTodoE (logger : Logger) (now : Nat) (text : String) (s : StoreState) :
    Except String StoreState :=
  if jsTrim text ≠ "" then
    let newTodo : Todo :=
      { id := Nat.repr (now + s.idCounter)
        text := jsTrim text
        completed := false
        createdAt := now }
    do
      logger ⟨.info, "Todo added", [("id", .str newTodo.id), ("text", .str newTodo.text)]⟩
      pure { todos := s.todos ++ [newTodo], idCounter := s.idCounter + 1 }
  else
    pure s

/-- `toggleTodo` with explicit logger effects and the explicit
out-of-range-access failure of `updatedTodos[todoIndex].completed`. -/
def toggleTodoE (logger : Logger) (id : String) (s : StoreState) :
    Except String StoreState :=
  match s.todos.findIdx? (fun todo => todo.id == id) with
  | some todoIndex =>
    let updatedTodos := s.todos.map (flipIf id)
    match updatedTodos.get? todoIndex with
    | some updatedTodo =>
      do
        logger ⟨.info, "Todo toggled",
                [("id", .str id), ("completed", .bool updatedTodo.completed)]⟩
        pure { todos := updatedTodos, idCounter := s.idCounter }
    | none => .error "TypeError: cannot read properties of undefined"
  | none =>
    do
      logger ⟨.warn, "Todo not found for toggle", [("id", .str id)]⟩
      pure s

/-- `removeTodo` with explicit logger effects. -/
def removeTodoE (logger : Logger) (id : String) (s : StoreState) :
    Except String StoreState :=
  let initialLength := s.todos.length
  let updatedTodos := s.todos.filter (fun todo => todo.id != id)
  do
    if updatedTodos.length < initialLength then
      logger ⟨.info, "Todo removed", [("id", .str id)]⟩
    else
      logger ⟨.warn, "Todo not found for removal", [("id", .str id)]⟩
    pure { todos := updatedTodos, idCounter := s.idCounter }

/-- `loadTodos` with explicit logger effects. -/
def loadTodosE (logger : Logger) (s : StoreState) : Except String StoreState :=
  do
    logger ⟨.info, "Todos loaded", [("count", .num 0)]⟩
    pure s

/-- Dispatch one operation in the exception-explicit model. -/
def stepE (logger : Logger) (s : StoreState) : Op → Except String StoreState
  | .add now text => addTodoE logger now text s
  | .toggle id => toggleTodoE logger id s
  | .remove id => removeTodoE logger id s
  | .load => loadTodosE logger s

/-!
Decimal string representations of distinct numbers are distinct.  We
prove this by exhibiting a left inverse of `Nat.repr`: read the digit
characters back with a base-10 fold.
-/

/-- Numeric value of a decimal digit character. -/
def decDigit (c : Char) : Nat := c.toNat - 48

/-- One step of reading a decimal string left to right. -/
def decStep (a : Nat) (c : Char) : Nat := 10 * a + decDigit c

/-- Read a decimal string back into a number. -/
def decValue (s : String) : Nat := s.data.foldl decStep 0

theorem decDigit_digitChar : ∀ d, d < 10 → decDigit (Nat.digitChar d) = d := by
  decide

theorem foldl_decStep_toDigitsCore :
    ∀ (fuel n : Nat) (ds : List Char), n < fuel →
      (Nat.toDigitsCore 10 fuel n ds).foldl decStep 0 = ds.foldl decStep n := by
  intro fuel
  induction fuel with
  | zero => intro n ds h; omega
  | succ f ih =>
    intro n ds h
    show (Nat.toDigitsCore 10 (f + 1) n ds).foldl decStep 0 = ds.foldl decStep n
    rw [Nat.toDigitsCore]
    by_cases hz : n / 10 = 0
    · simp only [hz, if_pos]
      have hn : n < 10 := by omega
      have : decStep 0 (Nat.digitChar (n % 10)) = n := by
        have h10 : n % 10 < 10 := Nat.mod_lt _ (by omega)
        simp [decStep, decDigit_digitChar _ h10]
        omega
      simp [List.foldl, this]
    · simp only [hz, if_neg, ite_false]
      have hlt : n / 10 < f := by
        have h1 : 0 < n := by
          rcases Nat.eq_zero_or_pos n with h0 | h0
          · exact absurd (by simp [h0]) hz
          · exact h0
        have := Nat.div_lt_self h1 (by omega : 1 < 10)
        omega
      rw [ih (n / 10) (Nat.digitChar (n % 10) :: ds) hlt]
      have h10 : n % 10 < 10 := Nat.mod_lt _ (by omega)
      simp [List.foldl, decStep, decDigit_digitChar _ h10]
      congr 1
      omega

theorem decValue_repr (n : Nat) : decValue (Nat.repr n) = n := by
  show ((Nat.toDigits 10 n).asString.data).foldl decStep 0 = n
  have hdata : (Nat.toDigits 10 n).asString.data = Nat.toDigits 10 n := rfl
  rw [hdata]
  show (Nat.toDigitsCore 10 (n + 1) n []).foldl decStep 0 = n
  rw [foldl_decStep_toDigitsCore (n + 1) n [] (Nat.lt_succ_self n)]
  rfl

theorem repr_injective : Function.Injective Nat.repr := by
  intro a b h
  have := decValue_repr a
  rw [h, decValue_repr] at this
  omega

/-- C1: for every string whose trim is non-empty and every current todo
sequence, `addTodo` appends exactly one new entry at the end (length grows
by exactly 1, all prior entries unchanged and in their prior order), the
new entry has `text = s.trim` and `completed = false`, and exactly one
info-level log is emitted carrying the new entry's id and trimmed text. -/
theorem addTodo_appends_one (now : Nat) (text : String) (s : StoreState)
    (h : jsTrim text ≠ "") :
    ∃ t : Todo,
      (addTodo now text s).state.todos = s.todos ++ [t] ∧
      (addTodo now text s).state.todos.length = s.todos.length + 1 ∧
      t.text = jsTrim text ∧
      t.completed = false ∧
      (addTodo now text s).logs =
        [⟨.info, "Todo added", [("id", .str t.id), ("text", .str t.text)]⟩] := by
  refine ⟨⟨Nat.repr (now + s.idCounter), jsTrim text, false, now⟩, ?_, ?_, rfl, rfl, ?_⟩ <;>
    simp [addTodo, h]

theorem addTodo_appends_one_witness :
    (jsTrim " buy milk " ≠ "") ∧
    ∃ t : Todo,
      (addTodo 100 " buy milk " initialState).state.todos = initialState.todos ++ [t] ∧
      (addTodo 100 " buy milk " initialState).state.todos.length =
        initialState.todos.length + 1 ∧
      t.text = jsTrim " buy milk " ∧
      t.completed = false ∧
      (addTodo 100 " buy milk " initialState).logs =
        [⟨.info, "Todo added", [("id", .str t.id), ("text", .str t.text)]⟩] :=
  ⟨by decide, addTodo_appends_one 100 " buy milk " initialState (by decide)⟩

/-- C5: for every string that is empty or all-whitespace (trim empty),
`addTodo` is a complete no-op: state unchanged, no log of any severity,
no broadcast. -/
theorem addTodo_blank_silent_noop (now : Nat) (text : String) (s : StoreState)
    (h : jsTrim text = "") :
    (addTodo now text s).state = s ∧
    (addTodo now text s).logs = [] ∧
    (addTodo now text s).broadcast = false := by
  refine ⟨?_, ?_, ?_⟩ <;> simp [addTodo, h]

theorem addTodo_blank_silent_noop_witness :
    (jsTrim "   " = "") ∧
    ((addTodo 7 "   " initialState).state = initialState ∧
     (addTodo 7 "   " initialState).logs = [] ∧
     (addTodo 7 "   " initialState).broadcast = false) :=
  ⟨by decide, addTodo_blank_silent_noop 7 "   " initialState (by decide)⟩

/-- C4: for every id not present in the todo sequence, `toggleTodo` and
`removeTodo` leave the collection (by content) unchanged, emit exactly one
warn-level log carrying that id (and no info log), and — given a logging
collaborator that does not raise — return normally, surfacing nothing to
the caller. -/
theorem notFound_ops_warn_noop (id : String) (s : StoreState)
    (h : id ∉ s.todos.map Todo.id) :
    (toggleTodo id s).state = s ∧
    (toggleTodo id s).logs = [⟨.warn, "Todo not found for toggle", [("id", .str id)]⟩] ∧
    (removeTodo id s).state.todos = s.todos ∧
    (removeTodo id s).logs = [⟨.warn, "Todo not found for removal", [("id", .str id)]⟩] ∧
    (∀ logger : Logger, (∀ e, logger e = .ok ()) →
      toggleTodoE logger id s = .ok s ∧
      removeTodoE logger id s = .ok (removeTodo id s).state) := by
  have hall : ∀ t ∈ s.todos, (t.id == id) = false := by
    intro t ht
    have : t.id ≠ id := by
      intro he
      exact h (he ▸ List.mem_map_of_mem Todo.id ht)
    simpa using this
  have hnone : s.todos.findIdx? (fun todo => todo.id == id) = none :=
    List.findIdx?_eq_none_iff.mpr hall
  have hfilter : s.todos.filter (fun todo => todo.id != id) = s.todos :=
    List.filter_eq_self.mpr (by intro t ht; simpa using hall t ht)
  refine ⟨?_, ?_, ?_, ?_, ?_⟩
  · simp [toggleTodo, hnone]
  · simp [toggleTodo, hnone]
  · simp [removeTodo, hfilter]
  · simp [removeTodo, hfilter]
  · intro logger hl
    constructor
    · simp [toggleTodoE, hnone, hl]
    · simp [removeTodoE, removeTodo, hfilter, hl]

theorem notFound_ops_warn_noop_witness :
    ("zzz" ∉ (initialState.todos.map Todo.id)) ∧
    ((toggleTodo "zzz" initialState).state = initialState ∧
     (toggleTodo "zzz" initialState).logs =
       [⟨.warn, "Todo not found for toggle", [("id", .str "zzz")]⟩] ∧
     (removeTodo "zzz" initialState).state.todos = initialState.todos ∧
     (removeTodo "zzz" initialState).logs =
       [⟨.warn, "Todo not found for removal", [("id", .str "zzz")]⟩] ∧
     (∀ logger : Logger, (∀ e, logger e = .ok ()) →
       toggleTodoE logger "zzz" initialState = .ok initialState ∧
       removeTodoE logger "zzz" initialState = .ok (removeTodo "zzz" initialState).state)) :=
  ⟨by decide, notFound_ops_warn_noop "zzz" initialState (by decide)⟩

/-- C7 counterexample: on a state holding one todo, `loadTodos` does not
log the current count of the collection — the payload is the hard-coded
`{count: 0}`, not `{count: 1}`. -/
theorem loadTodos_count_cex :
    ¬ ((loadTodos ⟨[⟨"1", "a", false, 0⟩], 2⟩).logs =
        [⟨.info, "Todos loaded",
          [("count", .num (⟨[⟨"1", "a", false, 0⟩], 2⟩ : StoreState).todos.length)]⟩]) := by
  decide

/-- C7 amended: `loadTodos` performs no mutation and unconditionally emits
exactly one info-level notification whose payload is the hard-coded count
`0` (not the size of the collection); repeated calls each emit their own
notification and never change state. -/
theorem loadTodos_noop_logs_zero (s : StoreState) :
    (loadTodos s).state = s ∧
    (loadTodos s).logs = [⟨.info, "Todos loaded", [("count", .num 0)]⟩] ∧
    (loadTodos (loadTodos s).state).state = s ∧
    (loadTodos (loadTodos s).state).logs =
      [⟨.info, "Todos loaded", [("count", .num 0)]⟩] :=
  ⟨rfl, rfl, rfl, rfl⟩

/-- C10: asymmetry of the not-found paths.  `toggleTodo` on a missing id
returns the previous state reference itself — in the heap model nothing is
allocated and the published pointer is unchanged, and no broadcast occurs.
`removeTodo` on a missing id still allocates and publishes a freshly
filtered array — a new pointer whose content equals the old one, every old
cell untouched — and a broadcast does occur. -/
theorem notFound_broadcast_asymmetry (id : String) (s : StoreState) (h : HStore)
    (hid : id ∉ (h.deref h.cur).map Todo.id) (hs : id ∉ s.todos.map Todo.id) :
    hToggleTodo id h = h ∧
    (toggleTodo id s).broadcast = false ∧
    (toggleTodo id s).state = s ∧
    (hRemoveTodo id h).cur = h.heap.length ∧
    (hRemoveTodo id h).deref (hRemoveTodo id h).cur = h.deref h.cur ∧
    (∀ p, p < h.heap.length → (hRemoveTodo id h).heap.get? p = h.heap.get? p) ∧
    (removeTodo id s).broadcast = true ∧
    (removeTodo id s).state.todos = s.todos := by
  have hallh : ∀ t ∈ h.deref h.cur, (t.id == id) = false := by
    intro t ht
    have : t.id ≠ id := by
      intro he
      exact hid (he ▸ List.mem_map_of_mem Todo.id ht)
    simpa using this
  have halls : ∀ t ∈ s.todos, (t.id == id) = false := by
    intro t ht
    have : t.id ≠ id := by
      intro he
      exact hs (he ▸ List.mem_map_of_mem Todo.id ht)
    simpa using this
  have hnoneh : (h.deref h.cur).findIdx? (fun todo => todo.id == id) = none :=
    List.findIdx?_eq_none_iff.mpr hallh
  have hnones : s.todos.findIdx? (fun todo => todo.id == id) = none :=
    List.findIdx?_eq_none_iff.mpr halls
  have hfilterh : (h.deref h.cur).filter (fun todo => todo.id != id) = h.deref h.cur :=
    List.filter_eq_self.mpr (by intro t ht; simpa using hallh t ht)
  have hfilters : s.todos.filter (fun todo => todo.id != id) = s.todos :=
    List.filter_eq_self.mpr (by intro t ht; simpa using halls t ht)
  refine ⟨?_, ?_, ?_, rfl, ?_, ?_, rfl, ?_⟩
  · simp [hToggleTodo, hnoneh]
  · simp [toggleTodo, hnones]
  · simp [toggleTodo, hnones]
  · show (HStore.mk (h.heap ++ [(h.deref h.cur).filter (fun todo => todo.id != id)])
      h.heap.length h.idCounter).deref h.heap.length = h.deref h.cur
    show (h.heap ++ [(h.deref h.cur).filter (fun todo => todo.id != id)]).getD
      h.heap.length [] = h.deref h.cur
    rw [List.getD_eq_getElem?_getD, List.getElem?_concat_length, Option.getD_some, hfilterh]
  · intro p hp
    simp [hRemoveTodo, List.getElem?_append_left hp]
  · simp [removeTodo, hfilters]

theorem notFound_broadcast_asymmetry_witness :
    ("zz" ∉ ((HStore.mk [[]] 0 1).deref (HStore.mk [[]] 0 1).cur).map Todo.id) ∧
    ("zz" ∉ (initialState.todos.map Todo.id)) ∧
    (hToggleTodo "zz" (HStore.mk [[]] 0 1) = HStore.mk [[]] 0 1 ∧
     (toggleTodo "zz" initialState).broadcast = false ∧
     (toggleTodo "zz" initialState).state = initialState ∧
     (hRemoveTodo "zz" (HStore.mk [[]] 0 1)).cur = (HStore.mk [[]] 0 1).heap.length ∧
     (hRemoveTodo "zz" (HStore.mk [[]] 0 1)).deref (hRemoveTodo "zz" (HStore.mk [[]] 0 1)).cur =
       (HStore.mk [[]] 0 1).deref (HStore.mk [[]] 0 1).cur ∧
     (∀ p, p < (HStore.mk [[]] 0 1).heap.length →
       (hRemoveTodo "zz" (HStore.mk [[]] 0 1)).heap.get? p = (HStore.mk [[]] 0 1).heap.get? p) ∧
     (removeTodo "zz" initialState).broadcast = true ∧
     (removeTodo "zz" initialState).state.todos = initialState.todos) :=
  ⟨by decide, by decide,
    notFound_broadcast_asymmetry "zz" initialState (HStore.mk [[]] 0 1) (by decide) (by decide)⟩

theorem StoreState.ext_eq (a b : StoreState)
    (h1 : a.todos = b.todos) (h2 : a.idCounter = b.idCounter) : a = b := by
  cases a
  cases b
  simp_all

theorem flipIf_id_eq (id : String) (t : Todo) : (flipIf id t).id = t.id := by
  unfold flipIf
  by_cases h : t.id = id <;> simp [h]

theorem flipIf_flipIf (id : String) (t : Todo) : flipIf id (flipIf id t) = t := by
  obtain ⟨tid, ttext, tc, tca⟩ := t
  unfold flipIf
  by_cases h : tid = id <;> simp [h]

theorem flipIf_of_ne (id : String) (t : Todo) (h : t.id ≠ id) : flipIf id t = t := by
  simp [flipIf, h]

theorem map_flipIf_of_forall_ne (id : String) (l : List Todo)
    (h : ∀ t ∈ l, t.id ≠ id) : l.map (flipIf id) = l := by
  induction l with
  | nil => rfl
  | cons x xs ih =>
    simp only [List.map_cons]
    rw [flipIf_of_ne id x (h x (List.mem_cons_self x xs)),
      ih (fun t ht => h t (List.mem_cons_of_mem x ht))]

/-- Split a todo list with nodup ids at the unique entry carrying `id`. -/
theorem exists_split_of_mem_ids (id : String) (l : List Todo)
    (hnd : (l.map Todo.id).Nodup) (hmem : id ∈ l.map Todo.id) :
    ∃ pre t suf, l = pre ++ t :: suf ∧ t.id = id ∧
      (∀ x ∈ pre, x.id ≠ id) ∧ (∀ x ∈ suf, x.id ≠ id) := by
  obtain ⟨t, ht, htid⟩ := List.mem_map.mp hmem
  obtain ⟨pre, suf, hsplit⟩ := List.append_of_mem ht
  subst hsplit
  refine ⟨pre, t, suf, rfl, htid, ?_, ?_⟩
  · intro x hx he
    have : (Todo.id t) ∈ (pre.map Todo.id) := by
      rw [htid, ← he]
      exact List.mem_map_of_mem Todo.id hx
    simp only [List.map_append, List.map_cons, List.nodup_append] at hnd
    exact (hnd.2.2 this) (by simp)
  · intro x hx he
    simp only [List.map_append, List.map_cons] at hnd
    have hcons : ((Todo.id t) :: suf.map Todo.id).Nodup := (List.nodup_append.mp hnd).2.1
    have : (Todo.id t) ∈ suf.map Todo.id := by
      rw [htid, ← he]
      exact List.mem_map_of_mem Todo.id hx
    exact (List.nodup_cons.mp hcons).1 this

/-- When `findIndex` hits, `toggleTodo` publishes the flip-mapped array
and keeps the id counter. -/
theorem toggleTodo_found (id : String) (s : StoreState) (i : Nat)
    (hi : s.todos.findIdx? (fun todo => todo.id == id) = some i) :
    (toggleTodo id s).state = ⟨s.todos.map (flipIf id), s.idCounter⟩ := by
  simp only [toggleTodo, hi]

/-- C2: for an id present in a todo sequence with (invariant) unique ids,
`toggleTodo` yields the same sequence except that the matched entry has
its `completed` flag negated — its `id`, `text`, `createdAt` and every
other entry are unchanged by value — the id counter is untouched, and
applying `toggleTodo` twice with the same id restores the original state
(involution). -/
theorem toggleTodo_flips_existing (id : String) (s : StoreState)
    (hnd : (s.todos.map Todo.id).Nodup)
    (hmem : id ∈ s.todos.map Todo.id) :
    ∃ pre t suf,
      s.todos = pre ++ t :: suf ∧
      t.id = id ∧
      (toggleTodo id s).state.todos =
        pre ++ { t with completed := !t.completed } :: suf ∧
      (toggleTodo id s).state.idCounter = s.idCounter ∧
      (toggleTodo id (toggleTodo id s).state).state = s := by
  obtain ⟨pre, t, suf, hsplit, htid, hpre, hsuf⟩ :=
    exists_split_of_mem_ids id s.todos hnd hmem
  have hany : s.todos.any (fun todo => todo.id == id) = true := by
    refine List.any_eq_true.mpr ⟨t, ?_, by simp [htid]⟩
    rw [hsplit]
    exact List.mem_append_right pre (List.mem_cons_self t suf)
  have hsome : (s.todos.findIdx? (fun todo => todo.id == id)).isSome := by
    rw [List.findIdx?_isSome, hany]
  obtain ⟨i, hi⟩ := Option.isSome_iff_exists.mp hsome
  have hs1 : (toggleTodo id s).state = ⟨s.todos.map (flipIf id), s.idCounter⟩ :=
    toggleTodo_found id s i hi
  have hmain : s.todos.map (flipIf id) =
      pre ++ { t with completed := !t.completed } :: suf := by
    rw [hsplit, List.map_append, List.map_cons, map_flipIf_of_forall_ne id pre hpre,
      map_flipIf_of_forall_ne id suf hsuf]
    simp [flipIf, htid]
  refine ⟨pre, t, suf, hsplit, htid, by rw [hs1, hmain], by rw [hs1], ?_⟩
  have hany2 : (s.todos.map (flipIf id)).any (fun todo => todo.id == id) = true := by
    rw [hsplit]
    refine List.any_eq_true.mpr ⟨flipIf id t, ?_, by simp [flipIf_id_eq, htid]⟩
    simp only [List.map_append, List.map_cons]
    exact List.mem_append_right _ (List.mem_cons_self _ _)
  have hsome2 : ((s.todos.map (flipIf id)).findIdx? (fun todo => todo.id == id)).isSome := by
    rw [List.findIdx?_isSome, hany2]
  obtain ⟨j, hj⟩ := Option.isSome_iff_exists.mp hsome2
  have hs2 : (toggleTodo id (⟨s.todos.map (flipIf id), s.idCounter⟩ : StoreState)).state =
      ⟨(s.todos.map (flipIf id)).map (flipIf id), s.idCounter⟩ :=
    toggleTodo_found id ⟨s.todos.map (flipIf id), s.idCounter⟩ j hj
  have hback : (s.todos.map (flipIf id)).map (flipIf id) = s.todos := by
    rw [List.map_map]
    have hfun : (flipIf id ∘ flipIf id) = fun x => flipIf id (flipIf id x) := rfl
    rw [hfun]
    calc s.todos.map (fun x => flipIf id (flipIf id x))
        = s.todos.map (fun x => x) := List.map_congr_left (fun x _ => flipIf_flipIf id x)
      _ = s.todos := by simp
  rw [hs1, hs2]
  exact StoreState.ext_eq _ _ hback rfl

theorem toggleTodo_flips_existing_witness :
    (((⟨[⟨"7", "a", false, 3⟩, ⟨"8", "b", true, 4⟩], 5⟩ : StoreState).todos.map
        Todo.id).Nodup) ∧
    ("8" ∈ (⟨[⟨"7", "a", false, 3⟩, ⟨"8", "b", true, 4⟩], 5⟩ : StoreState).todos.map
        Todo.id) ∧
    (∃ pre t suf,
      (⟨[⟨"7", "a", false, 3⟩, ⟨"8", "b", true, 4⟩], 5⟩ : StoreState).todos =
        pre ++ t :: suf ∧
      t.id = "8" ∧
      (toggleTodo "8" ⟨[⟨"7", "a", false, 3⟩, ⟨"8", "b", true, 4⟩], 5⟩).state.todos =
        pre ++ { t with completed := !t.completed } :: suf ∧
      (toggleTodo "8" ⟨[⟨"7", "a", false, 3⟩, ⟨"8", "b", true, 4⟩], 5⟩).state.idCounter =
        (⟨[⟨"7", "a", false, 3⟩, ⟨"8", "b", true, 4⟩], 5⟩ : StoreState).idCounter ∧
      (toggleTodo "8"
        (toggleTodo "8" ⟨[⟨"7", "a", false, 3⟩, ⟨"8", "b", true, 4⟩], 5⟩).state).state =
        ⟨[⟨"7", "a", false, 3⟩, ⟨"8", "b", true, 4⟩], 5⟩) :=
  ⟨by decide, by decide,
    toggleTodo_flips_existing "8" ⟨[⟨"7", "a", false, 3⟩, ⟨"8", "b", true, 4⟩], 5⟩
      (by decide) (by decide)⟩

theorem filter_ne_of_forall_ne (id : String) (l : List Todo)
    (h : ∀ t ∈ l, t.id ≠ id) : l.filter (fun todo => todo.id != id) = l :=
  List.filter_eq_self.mpr (by intro t ht; simpa using h t ht)

/-- C3: for an id present in a todo sequence with (invariant) unique ids,
`removeTodo` drops exactly the matched entry — length shrinks by exactly
1, no entry with that id remains, the surviving entries keep their
relative order — and emits exactly one info-level log carrying `{id}`.
Running `removeTodo` again with the same id right after changes nothing
and emits exactly one warn-level log. -/
theorem removeTodo_removes_existing (id : String) (s : StoreState)
    (hnd : (s.todos.map Todo.id).Nodup)
    (hmem : id ∈ s.todos.map Todo.id) :
    ∃ pre t suf,
      s.todos = pre ++ t :: suf ∧
      t.id = id ∧
      (removeTodo id s).state.todos = pre ++ suf ∧
      (removeTodo id s).state.todos.length + 1 = s.todos.length ∧
      (∀ x ∈ (removeTodo id s).state.todos, x.id ≠ id) ∧
      (removeTodo id s).state.idCounter = s.idCounter ∧
      (removeTodo id s).logs = [⟨.info, "Todo removed", [("id", .str id)]⟩] ∧
      (removeTodo id (removeTodo id s).state).state = (removeTodo id s).state ∧
      (removeTodo id (removeTodo id s).state).logs =
        [⟨.warn, "Todo not found for removal", [("id", .str id)]⟩] := by
  obtain ⟨pre, t, suf, hsplit, htid, hpre, hsuf⟩ :=
    exists_split_of_mem_ids id s.todos hnd hmem
  have hfilter : s.todos.filter (fun todo => todo.id != id) = pre ++ suf := by
    rw [hsplit, List.filter_append, List.filter_cons]
    have : (t.id != id) = false := by simp [htid]
    rw [this]
    simp only [Bool.false_eq_true, if_false]
    rw [filter_ne_of_forall_ne id pre hpre, filter_ne_of_forall_ne id suf hsuf]
  have hlen : (pre ++ suf).length < s.todos.length := by
    rw [hsplit]
    simp only [List.length_append, List.length_cons]
    omega
  have hstate : (removeTodo id s).state = ⟨pre ++ suf, s.idCounter⟩ := by
    simp only [removeTodo, hfilter]
  have hlogs : (removeTodo id s).logs = [⟨.info, "Todo removed", [("id", .str id)]⟩] := by
    simp only [removeTodo, hfilter]
    rw [if_pos hlen]
  have hsurvive : ∀ x ∈ pre ++ suf, x.id ≠ id := by
    intro x hx
    rcases List.mem_append.mp hx with h1 | h1
    · exact hpre x h1
    · exact hsuf x h1
  have hfilter2 : (pre ++ suf).filter (fun todo => todo.id != id) = pre ++ suf :=
    filter_ne_of_forall_ne id (pre ++ suf) hsurvive
  have hstate2 : (removeTodo id (⟨pre ++ suf, s.idCounter⟩ : StoreState)).state =
      ⟨pre ++ suf, s.idCounter⟩ := by
    simp only [removeTodo, hfilter2]
  have hlogs2 : (removeTodo id (⟨pre ++ suf, s.idCounter⟩ : StoreState)).logs =
      [⟨.warn, "Todo not found for removal", [("id", .str id)]⟩] := by
    simp only [removeTodo, hfilter2]
    rw [if_neg (by omega)]
  refine ⟨pre, t, suf, hsplit, htid, by rw [hstate], ?_, ?_, by rw [hstate], hlogs, ?_, ?_⟩
  · rw [hstate, hsplit]
    simp only [List.length_append, List.length_cons]
    omega
  · intro x hx
    rw [hstate] at hx
    exact hsurvive x hx
  · rw [hstate, hstate2]
  · rw [hstate, hlogs2]

theorem removeTodo_removes_existing_witness :
    (((⟨[⟨"7", "a", false, 3⟩, ⟨"8", "b", true, 4⟩], 5⟩ : StoreState).todos.map
        Todo.id).Nodup) ∧
    ("7" ∈ (⟨[⟨"7", "a", false, 3⟩, ⟨"8", "b", true, 4⟩], 5⟩ : StoreState).todos.map
        Todo.id) ∧
    (∃ pre t suf,
      (⟨[⟨"7", "a", false, 3⟩, ⟨"8", "b", true, 4⟩], 5⟩ : StoreState).todos =
        pre ++ t :: suf ∧
      t.id = "7" ∧
      (removeTodo "7" ⟨[⟨"7", "a", false, 3⟩, ⟨"8", "b", true, 4⟩], 5⟩).state.todos =
        pre ++ suf ∧
      (removeTodo "7" ⟨[⟨"7", "a", false, 3⟩, ⟨"8", "b", true, 4⟩], 5⟩).state.todos.length + 1 =
        (⟨[⟨"7", "a", false, 3⟩, ⟨"8", "b", true, 4⟩], 5⟩ : StoreState).todos.length ∧
      (∀ x ∈ (removeTodo "7" ⟨[⟨"7", "a", false, 3⟩, ⟨"8", "b", true, 4⟩], 5⟩).state.todos,
        x.id ≠ "7") ∧
      (removeTodo "7" ⟨[⟨"7", "a", false, 3⟩, ⟨"8", "b", true, 4⟩], 5⟩).state.idCounter =
        (⟨[⟨"7", "a", false, 3⟩, ⟨"8", "b", true, 4⟩], 5⟩ : StoreState).idCounter ∧
      (removeTodo "7" ⟨[⟨"7", "a", false, 3⟩, ⟨"8", "b", true, 4⟩], 5⟩).logs =
        [⟨.info, "Todo removed", [("id", .str "7")]⟩] ∧
      (removeTodo "7"
        (removeTodo "7" ⟨[⟨"7", "a", false, 3⟩, ⟨"8", "b", true, 4⟩], 5⟩).state).state =
        (removeTodo "7" ⟨[⟨"7", "a", false, 3⟩, ⟨"8", "b", true, 4⟩], 5⟩).state ∧
      (removeTodo "7"
        (removeTodo "7" ⟨[⟨"7", "a", false, 3⟩, ⟨"8", "b", true, 4⟩], 5⟩).state).logs =
        [⟨.warn, "Todo not found for removal", [("id", .str "7")]⟩]) :=
  ⟨by decide, by decide,
    removeTodo_removes_existing "7" ⟨[⟨"7", "a", false, 3⟩, ⟨"8", "b", true, 4⟩], 5⟩
      (by decide) (by decide)⟩

/-- C9: when the logging collaborator's calls do not raise, no store
operation raises for any input: in the exception-explicit model every
dispatch returns `.ok` with exactly the state the pure model computes —
in particular the guarded array access in `toggleTodo` is always in
range. -/
theorem store_ops_never_throw (logger : Logger) (hlog : ∀ e, logger e = .ok ())
    (s : StoreState) (op : Op) :
    stepE logger s op = .ok (step s op).state := by
  cases op with
  | add now text =>
    simp only [stepE, step, addTodoE, addTodo]
    by_cases htrim : jsTrim text ≠ ""
    · rw [if_pos htrim, if_pos htrim, hlog]
      rfl
    · rw [if_neg htrim, if_neg htrim]
      rfl
  | toggle id =>
    cases hidx : s.todos.findIdx? (fun todo => todo.id == id) with
    | none =>
      simp only [stepE, step, toggleTodoE, toggleTodo, hidx]
      rw [hlog]
      rfl
    | some i =>
      have hlt : i < s.todos.length := by
        have := List.findIdx?_eq_some_iff_findIdx_eq.mp hidx
        exact this.1
      have hlt2 : i < (s.todos.map (flipIf id)).length := by
        rw [List.length_map]
        exact hlt
      have hget : (s.todos.map (flipIf id)).get? i =
          some ((s.todos.map (flipIf id)).get ⟨i, hlt2⟩) := List.get?_eq_get hlt2
      have hgetD : (s.todos.map (flipIf id)).getD i ⟨"", "", false, 0⟩ =
          (s.todos.map (flipIf id)).get ⟨i, hlt2⟩ := by
        rw [List.getD_eq_getElem?_getD]
        simp [List.getElem?_eq_getElem hlt2]
      simp only [stepE, step, toggleTodoE, toggleTodo, hidx]
      rw [show (s.todos.map (flipIf id)).get? i =
        some ((s.todos.map (flipIf id)).get ⟨i, hlt2⟩) from hget]
      simp only [hgetD]
      rw [hlog]
      rfl
  | remove id =>
    simp only [stepE, step, removeTodoE, removeTodo]
    by_cases hlen : (s.todos.filter (fun todo => todo.id != id)).length < s.todos.length
    · rw [if_pos hlen, hlog]
      rfl
    · rw [if_neg hlen, hlog]
      rfl
  | load =>
    simp only [stepE, step, loadTodosE, loadTodos]
    rw [hlog]
    rfl

theorem store_ops_never_throw_witness :
    stepE (fun _ => .ok ()) initialState (.add 5 "x") =
      .ok (step initialState (.add 5 "x")).state :=
  store_ops_never_throw (fun _ => .ok ()) (fun _ => rfl) initialState (.add 5 "x")

/-- `new` publishes a freshly allocated array holding `content`: the
published pointer is the next free cell, every previously allocated cell
— in particular the previously published one — still holds exactly what
it held before. -/
def FreshPublish (old new : HStore) (content : List Todo) : Prop :=
  new.cur = old.heap.length ∧
  (∀ p, p < old.heap.length → new.heap.get? p = old.heap.get? p) ∧
  new.deref new.cur = content

/-- C8: every mutation is copy-on-write.  On their mutating paths,
`addTodo`, `toggleTodo` and `removeTodo` each publish a newly allocated
sequence whose content is the one the pure model computes, while every
previously published sequence (any old heap cell, in particular the one
`cur` pointed to) is left unmodified by value — a holder of the old
snapshot observes no change. -/
theorem mutations_copy_on_write (now : Nat) (text tgl rmv : String) (h : HStore)
    (htext : jsTrim text ≠ "")
    (htgl : tgl ∈ (h.deref h.cur).map Todo.id)
    (hrmv : rmv ∈ (h.deref h.cur).map Todo.id) :
    FreshPublish h (hAddTodo now text h)
      (addTodo now text ⟨h.deref h.cur, h.idCounter⟩).state.todos ∧
    FreshPublish h (hToggleTodo tgl h)
      (toggleTodo tgl ⟨h.deref h.cur, h.idCounter⟩).state.todos ∧
    FreshPublish h (hRemoveTodo rmv h)
      (removeTodo rmv ⟨h.deref h.cur, h.idCounter⟩).state.todos := by
  obtain ⟨t1, ht1, ht1id⟩ := List.mem_map.mp htgl
  have hany : (h.deref h.cur).any (fun todo => todo.id == tgl) = true :=
    List.any_eq_true.mpr ⟨t1, ht1, by simp [ht1id]⟩
  have hsome : ((h.deref h.cur).findIdx? (fun todo => todo.id == tgl)).isSome := by
    rw [List.findIdx?_isSome, hany]
  obtain ⟨i, hi⟩ := Option.isSome_iff_exists.mp hsome
  refine ⟨⟨?_, ?_, ?_⟩, ⟨?_, ?_, ?_⟩, ⟨?_, ?_, ?_⟩⟩
  · simp only [hAddTodo, if_pos htext]
  · intro p hp
    simp only [hAddTodo, if_pos htext]
    simp [List.getElem?_append_left hp]
  · simp only [hAddTodo, if_pos htext, addTodo, if_pos htext, HStore.deref]
    rw [List.getD_eq_getElem?_getD, List.getElem?_concat_length, Option.getD_some]
  · simp only [hToggleTodo, hi]
  · intro p hp
    simp only [hToggleTodo, hi]
    simp [List.getElem?_append_left hp]
  · rw [toggleTodo_found tgl ⟨h.deref h.cur, h.idCounter⟩ i hi]
    simp only [hToggleTodo, hi]
    show (h.heap ++ [(h.deref h.cur).map (flipIf tgl)]).getD h.heap.length [] =
      (h.deref h.cur).map (flipIf tgl)
    rw [List.getD_eq_getElem?_getD, List.getElem?_concat_length, Option.getD_some]
  · simp only [hRemoveTodo]
  · intro p hp
    simp only [hRemoveTodo]
    simp [List.getElem?_append_left hp]
  · simp only [hRemoveTodo, removeTodo, HStore.deref]
    rw [List.getD_eq_getElem?_getD, List.getElem?_concat_length, Option.getD_some]

theorem mutations_copy_on_write_witness :
    (jsTrim " x " ≠ "") ∧
    ("9" ∈ ((HStore.mk [[⟨"9", "a", false, 0⟩]] 0 2).deref
      (HStore.mk [[⟨"9", "a", false, 0⟩]] 0 2).cur).map Todo.id) ∧
    (FreshPublish (HStore.mk [[⟨"9", "a", false, 0⟩]] 0 2)
      (hAddTodo 3 " x " (HStore.mk [[⟨"9", "a", false, 0⟩]] 0 2))
      (addTodo 3 " x "
        ⟨(HStore.mk [[⟨"9", "a", false, 0⟩]] 0 2).deref
          (HStore.mk [[⟨"9", "a", false, 0⟩]] 0 2).cur,
         (HStore.mk [[⟨"9", "a", false, 0⟩]] 0 2).idCounter⟩).state.todos ∧
    FreshPublish (HStore.mk [[⟨"9", "a", false, 0⟩]] 0 2)
      (hToggleTodo "9" (HStore.mk [[⟨"9", "a", false, 0⟩]] 0 2))
      (toggleTodo "9"
        ⟨(HStore.mk [[⟨"9", "a", false, 0⟩]] 0 2).deref
          (HStore.mk [[⟨"9", "a", false, 0⟩]] 0 2).cur,
         (HStore.mk [[⟨"9", "a", false, 0⟩]] 0 2).idCounter⟩).state.todos ∧
    FreshPublish (HStore.mk [[⟨"9", "a", false, 0⟩]] 0 2)
      (hRemoveTodo "9" (HStore.mk [[⟨"9", "a", false, 0⟩]] 0 2))
      (removeTodo "9"
        ⟨(HStore.mk [[⟨"9", "a", false, 0⟩]] 0 2).deref
          (HStore.mk [[⟨"9", "a", false, 0⟩]] 0 2).cur,
         (HStore.mk [[⟨"9", "a", false, 0⟩]] 0 2).idCounter⟩).state.todos) :=
  ⟨by decide, by decide,
    mutations_copy_on_write 3 " x " "9" "9" (HStore.mk [[⟨"9", "a", false, 0⟩]] 0 2)
      (by decide) (by decide) (by decide)⟩

theorem addTodo_pos_state (now : Nat) (text : String) (s : StoreState)
    (htrim : jsTrim text ≠ "") :
    (addTodo now text s).state =
      ⟨s.todos ++ [⟨Nat.repr (now + s.idCounter), jsTrim text, false, now⟩],
       s.idCounter + 1⟩ := by
  simp only [addTodo, if_pos htrim]

theorem addTodo_neg_state (now : Nat) (text : String) (s : StoreState)
    (htrim : ¬ jsTrim text ≠ "") :
    (addTodo now text s).state = s := by
  simp only [addTodo, if_neg htrim]

theorem toggleTodo_none (id : String) (s : StoreState)
    (hnone : s.todos.findIdx? (fun todo => todo.id == id) = none) :
    (toggleTodo id s).state = s := by
  simp only [toggleTodo, hnone]

theorem toggleTodo_idCounter (id : String) (s : StoreState) :
    (toggleTodo id s).state.idCounter = s.idCounter := by
  cases hfind : s.todos.findIdx? (fun todo => todo.id == id) with
  | none => rw [toggleTodo_none id s hfind]
  | some i => rw [toggleTodo_found id s i hfind]

theorem chrono_append :
    ∀ (l1 l2 : List Op) (t : Nat), chrono t (l1 ++ l2) = true → chrono t l1 = true := by
  intro l1
  induction l1 with
  | nil => intro l2 t _; rfl
  | cons op rest ih =>
    intro l2 t hc
    cases op with
    | add now text =>
      have hc2 : (t ≤ now) ∧ chrono now (rest ++ l2) = true := by
        simpa [chrono] using hc
      have : chrono t (Op.add now text :: rest) =
          (decide (t ≤ now) && chrono now rest) := rfl
      rw [this]
      simp [hc2.1, ih l2 now hc2.2]
    | toggle id =>
      exact ih l2 t (by simpa [chrono] using hc)
    | remove id =>
      exact ih l2 t (by simpa [chrono] using hc)
    | load =>
      exact ih l2 t (by simpa [chrono] using hc)

/-- Under a nondecreasing clock, the numbers `Date.now() + idCounter` from
which ids are built are strictly increasing along any run, hence all above
`t + idCounter`. -/
theorem genNums_pairwise_bound :
    ∀ (ops : List Op) (t : Nat) (s : StoreState), chrono t ops = true →
      List.Pairwise (· < ·) (genNums s ops) ∧
      ∀ n ∈ genNums s ops, t + s.idCounter ≤ n := by
  intro ops
  induction ops with
  | nil =>
    intro t s _
    exact ⟨List.Pairwise.nil, by intro n hn; simp [genNums] at hn⟩
  | cons op rest ih =>
    intro t s hc
    cases op with
    | add now text =>
      have hc2 : (t ≤ now) ∧ chrono now rest = true := by
        simpa [chrono] using hc
      by_cases htrim : jsTrim text ≠ ""
      · have hstate : (step s (.add now text)).state.idCounter = s.idCounter + 1 := by
          show (addTodo now text s).state.idCounter = s.idCounter + 1
          rw [addTodo_pos_state now text s htrim]
        have hrec := ih now (step s (.add now text)).state hc2.2
        rw [hstate] at hrec
        have hgen : genNums s (Op.add now text :: rest) =
            (now + s.idCounter) :: genNums (step s (.add now text)).state rest := by
          simp [genNums, htrim]
        constructor
        · rw [hgen]
          refine List.Pairwise.cons ?_ hrec.1
          intro n hn
          have := hrec.2 n hn
          omega
        · intro n hn
          rw [hgen] at hn
          rcases List.mem_cons.mp hn with rfl | hn
          · omega
          · have := hrec.2 n hn
            omega
      · have hstate : (step s (.add now text)).state = s := by
          show (addTodo now text s).state = s
          exact addTodo_neg_state now text s htrim
        have hrec := ih now (step s (.add now text)).state hc2.2
        rw [hstate] at hrec
        have hgen : genNums s (Op.add now text :: rest) =
            genNums (step s (.add now text)).state rest := by
          simp [genNums, htrim]
        rw [hgen, hstate]
        refine ⟨hrec.1, ?_⟩
        intro n hn
        have := hrec.2 n hn
        omega
    | toggle id =>
      have hc2 : chrono t rest = true := by simpa [chrono] using hc
      have hrec := ih t (step s (.toggle id)).state hc2
      have hcounter : (step s (.toggle id)).state.idCounter = s.idCounter :=
        toggleTodo_idCounter id s
      rw [hcounter] at hrec
      exact ⟨hrec.1, hrec.2⟩
    | remove id =>
      have hc2 : chrono t rest = true := by simpa [chrono] using hc
      have hrec := ih t (step s (.remove id)).state hc2
      have hcounter : (step s (.remove id)).state.idCounter = s.idCounter := rfl
      rw [hcounter] at hrec
      exact ⟨hrec.1, hrec.2⟩
    | load =>
      have hc2 : chrono t rest = true := by simpa [chrono] using hc
      have hrec := ih t (step s .load).state hc2
      exact ⟨hrec.1, hrec.2⟩

/-- Invariant carried along a run whose remaining clock values are at
least `t`: the ids in the collection are pairwise distinct, and each is
the decimal representation of a number below `t + idCounter` (so smaller
than every id yet to be generated). -/
def IdsOk (t : Nat) (s : StoreState) : Prop :=
  (s.todos.map Todo.id).Nodup ∧
  ∀ td ∈ s.todos, ∃ n, td.id = Nat.repr n ∧ n < t + s.idCounter

theorem idsOk_initial : IdsOk 0 initialState := by
  constructor
  · exact List.nodup_nil
  · intro td htd
    simp [initialState] at htd

theorem idsOk_add (t now : Nat) (text : String) (s : StoreState)
    (hok : IdsOk t s) (hle : t ≤ now) :
    IdsOk now (addTodo now text s).state := by
  by_cases htrim : jsTrim text ≠ ""
  · rw [addTodo_pos_state now text s htrim]
    constructor
    · show ((s.todos ++
        [(⟨Nat.repr (now + s.idCounter), jsTrim text, false, now⟩ : Todo)]).map
          Todo.id).Nodup
      rw [List.map_append, List.nodup_append]
      refine ⟨hok.1, by simp, ?_⟩
      intro a ha hb
      simp only [List.map_cons, List.map_nil, List.mem_singleton] at hb
      obtain ⟨td, htd, hid⟩ := List.mem_map.mp ha
      obtain ⟨n, hn, hlt⟩ := hok.2 td htd
      have : Nat.repr n = Nat.repr (now + s.idCounter) := by
        rw [← hn, hid, hb]
      have := repr_injective this
      omega
    · intro td htd
      show ∃ n, td.id = Nat.repr n ∧ n < now + (s.idCounter + 1)
      rcases List.mem_append.mp htd with h1 | h1
      · obtain ⟨n, hn, hlt⟩ := hok.2 td h1
        exact ⟨n, hn, by omega⟩
      · rcases List.mem_singleton.mp h1 with rfl
        exact ⟨now + s.idCounter, rfl, by omega⟩
  · rw [addTodo_neg_state now text s htrim]
    refine ⟨hok.1, ?_⟩
    intro td htd
    obtain ⟨n, hn, hlt⟩ := hok.2 td htd
    exact ⟨n, hn, by omega⟩

theorem idsOk_toggle (t : Nat) (id : String) (s : StoreState)
    (hok : IdsOk t s) : IdsOk t (toggleTodo id s).state := by
  cases hfind : s.todos.findIdx? (fun todo => todo.id == id) with
  | none => rw [toggleTodo_none id s hfind]; exact hok
  | some i =>
    rw [toggleTodo_found id s i hfind]
    constructor
    · show ((s.todos.map (flipIf id)).map Todo.id).Nodup
      rw [List.map_map]
      have : s.todos.map (Todo.id ∘ flipIf id) = s.todos.map Todo.id :=
        List.map_congr_left (fun x _ => flipIf_id_eq id x)
      rw [this]
      exact hok.1
    · intro td htd
      show ∃ n, td.id = Nat.repr n ∧ n < t + s.idCounter
      obtain ⟨td0, htd0, heq⟩ := List.mem_map.mp htd
      obtain ⟨n, hn, hlt⟩ := hok.2 td0 htd0
      refine ⟨n, ?_, hlt⟩
      rw [← heq, flipIf_id_eq, hn]

theorem idsOk_remove (t : Nat) (id : String) (s : StoreState)
    (hok : IdsOk t s) : IdsOk t (removeTodo id s).state := by
  constructor
  · show ((s.todos.filter (fun todo => todo.id != id)).map Todo.id).Nodup
    exact ((List.filter_sublist s.todos).map Todo.id).nodup hok.1
  · intro td htd
    show ∃ n, td.id = Nat.repr n ∧ n < t + s.idCounter
    exact hok.2 td (List.mem_of_mem_filter htd)

theorem runOps_idsOk :
    ∀ (ops : List Op) (t : Nat) (s : StoreState),
      chrono t ops = true → IdsOk t s → ∃ u, IdsOk u (runOps s ops) := by
  intro ops
  induction ops with
  | nil => intro t s _ hok; exact ⟨t, hok⟩
  | cons op rest ih =>
    intro t s hc hok
    cases op with
    | add now text =>
      have hc2 : (t ≤ now) ∧ chrono now rest = true := by
        simpa [chrono] using hc
      exact ih now _ hc2.2 (idsOk_add t now text s hok hc2.1)
    | toggle id =>
      have hc2 : chrono t rest = true := by simpa [chrono] using hc
      exact ih t _ hc2 (idsOk_toggle t id s hok)
    | remove id =>
      have hc2 : chrono t rest = true := by simpa [chrono] using hc
      exact ih t _ hc2 (idsOk_remove t id s hok)
    | load =>
      have hc2 : chrono t rest = true := by simpa [chrono] using hc
      exact ih t _ hc2 hok

/-- C6: across the store's lifetime — any sequence of operations under a
nondecreasing `Date.now()` clock, including many `addTodo` calls in the
same millisecond — the generated id strings are pairwise distinct, and
after every prefix of the run the id values in the collection are
pairwise distinct. -/
theorem generated_ids_unique (ops : List Op) (hc : chrono 0 ops = true) :
    (genIds initialState ops).Nodup ∧
    ∀ pre suf, ops = pre ++ suf →
      ((runOps initialState pre).todos.map Todo.id).Nodup := by
  constructor
  · have hp := (genNums_pairwise_bound ops 0 initialState hc).1
    have hnd : (genNums initialState ops).Nodup :=
      hp.imp (fun hlt => Nat.ne_of_lt hlt)
    exact hnd.map repr_injective
  · intro pre suf hsplit
    have hcpre : chrono 0 pre = true := chrono_append pre suf 0 (hsplit ▸ hc)
    obtain ⟨u, hu⟩ := runOps_idsOk pre 0 initialState hcpre idsOk_initial
    exact hu.1

theorem generated_ids_unique_witness :
    (chrono 0 [Op.add 100 "a", Op.add 100 "b", Op.remove "101", Op.add 101 "c"] = true) ∧
    ((genIds initialState
        [Op.add 100 "a", Op.add 100 "b", Op.remove "101", Op.add 101 "c"]).Nodup ∧
     ∀ pre suf,
       [Op.add 100 "a", Op.add 100 "b", Op.remove "101", Op.add 101 "c"] = pre ++ suf →
       ((runOps initialState pre).todos.map Todo.id).Nodup) :=
  ⟨by decide,
    generated_ids_unique [Op.add 100 "a", Op.add 100 "b", Op.remove "101", Op.add 101 "c"]
      (by decide)⟩

end TodoApp
